import Mathlib

/-!
Verification of the Sidetree transaction anchoring and resolution core.

The durable transaction log (`lib/MongoDbTransactionStore.ts`) is embedded
shallowly: each Mongo collection becomes a Lean list, each store method a pure
function from old state (plus the current wall-clock time, which the method
reads via `Date.now()`) to new state.  The FeeManager and the
OperationQueue/BatchWriter commit are modelled from the specification, since
only their test suites are part of the sampled sources.
-/

/-- Ledger-confirmed anchoring event.  Field set follows the data model of the
specification (the `Transaction` interface itself is referenced but not among
the sampled sources): ordering key `(transactionTime, transactionNumber)`,
the two hashes, and the two audit fee fields. -/
structure Transaction where
  transactionNumber : Int
  transactionTime : Int
  transactionTimeHash : String
  anchorFileHash : String
  transactionFeePaid : Int
  normalizedTransactionFee : Int
deriving Repr, DecidableEq, Inhabited

/-- Stored document of the `unresolvable-transactions` collection, as inserted by
`recordUnresolvableTransactionFetchAttempt`.  The fee fields are `Option` so the
model can distinguish a document that stores them from one that omits them:
the insert in the source writes only the seven other fields. -/
structure UnresolvableTransaction where
  transactionTime : Int
  transactionNumber : Int
  anchorFileHash : String
  transactionTimeHash : String
  transactionFeePaid : Option Int
  normalizedTransactionFee : Option Int
  firstFetchTime : Int
  retryAttempts : Nat
  nextRetryTime : Int
deriving Repr, DecidableEq

/-- Storage-layer error carrying a Mongo error code (11000 = duplicate key). -/
structure MongoError where
  code : Int
deriving Repr, DecidableEq

/-- State of `MongoDbTransactionStore`: the two collections plus the two numeric
settings fixed at construction. -/
structure MongoDbTransactionStore where
  exponentialDelayFactorInMilliseconds : Int
  maximumUnresolvableTransactionReturnCount : Nat
  transactionCollection : List Transaction
  unresolvableTransactionCollection : List UnresolvableTransaction
deriving Repr

/-- Constructor of `MongoDbTransactionStore`: the delay factor defaults to
60000 ms unless supplied; the maximum retry return count is always 100. -/
def MongoDbTransactionStore.construct (retryExponentialDelayFactor : Option Int) :
    MongoDbTransactionStore :=
  { exponentialDelayFactorInMilliseconds := retryExponentialDelayFactor.getD 60000
    maximumUnresolvableTransactionReturnCount := 100
    transactionCollection := []
    unresolvableTransactionCollection := [] }

/-- Match on the unique index key `(transactionTime, transactionNumber)`. -/
def Transaction.sameKey (time number : Int) (t : Transaction) : Bool :=
  t.transactionTime == time && t.transactionNumber == number

/-- Match on the unique index key `(transactionTime, transactionNumber)`. -/
def UnresolvableTransaction.sameKey (time number : Int) (u : UnresolvableTransaction) : Bool :=
  u.transactionTime == time && u.transactionNumber == number

/-- Mongo `insertOne` against the `transactions` collection, whose unique index on
`(transactionTime, transactionNumber)` rejects a duplicate pair with error code
11000 and leaves the collection unchanged.  `injected` models any other storage
failure the driver may surface. -/
def insertOne (injected : Option MongoError) (collection : List Transaction)
    (t : Transaction) : Except MongoError (List Transaction) :=
  match injected with
  | some e => Except.error e
  | none =>
    if collection.any (Transaction.sameKey t.transactionTime t.transactionNumber) then
      Except.error { code := 11000 }
    else
      Except.ok (collection ++ [t])

/-- Embeds `addProcessedTransaction`: try the insert, swallow a duplicate-key
error (code 11000) as a no-op, rethrow every other error. -/
def addProcessedTransaction (injected : Option MongoError) (collection : List Transaction)
    (t : Transaction) : Except MongoError (List Transaction) :=
  match insertOne injected collection t with
  | Except.ok updated => Except.ok updated
  | Except.error e => if e.code ≠ 11000 then Except.error e else Except.ok collection

/-- Ascending Mongo sort order `{ transactionTime: 1, transactionNumber: 1 }`. -/
def transactionAsc (a b : Transaction) : Prop :=
  a.transactionTime < b.transactionTime ∨
    (a.transactionTime = b.transactionTime ∧ a.transactionNumber ≤ b.transactionNumber)

instance : DecidableRel transactionAsc := fun a b =>
  inferInstanceAs (Decidable (a.transactionTime < b.transactionTime ∨
    (a.transactionTime = b.transactionTime ∧ a.transactionNumber ≤ b.transactionNumber)))

instance : IsTotal Transaction transactionAsc :=
  ⟨fun a b => by unfold transactionAsc; omega⟩

instance : IsTrans Transaction transactionAsc :=
  ⟨fun a b c hab hbc => by unfold transactionAsc at hab hbc ⊢; omega⟩

/-- Ascending Mongo sort order `{ nextRetryTime: 1 }`. -/
def nextRetryAsc (a b : UnresolvableTransaction) : Prop :=
  a.nextRetryTime ≤ b.nextRetryTime

instance : DecidableRel nextRetryAsc := fun a b =>
  inferInstanceAs (Decidable (a.nextRetryTime ≤ b.nextRetryTime))

instance : IsTotal UnresolvableTransaction nextRetryAsc :=
  ⟨fun a b => by unfold nextRetryAsc; omega⟩

instance : IsTrans UnresolvableTransaction nextRetryAsc :=
  ⟨fun a b c hab hbc => by unfold nextRetryAsc at hab hbc ⊢; omega⟩

/-- Inner while-loop of `getExponentiallySpacedTransactions`: push the entry at
`index`, step backward by the current distance, double the distance.  The
current distance is represented as `d + 1` so it is positive by construction
(the source starts it at 1 and only ever doubles it). -/
def exponentialWalk (all : List Transaction) (index d : Nat) : List Transaction :=
  all.getD index default ::
    (if h : d + 1 ≤ index then exponentialWalk all (index - (d + 1)) (2 * d + 1) else [])
termination_by index
decreasing_by omega

/-- Embeds `getExponentiallySpacedTransactions`: sort all transactions ascending
by `(transactionTime, transactionNumber)`, then walk backward from the last
index with distances 1, 2, 4, 8, … while the index stays in range. -/
def getExponentiallySpacedTransactions (collection : List Transaction) : List Transaction :=
  let allTransactions := collection.insertionSort transactionAsc
  if allTransactions.isEmpty then []
  else exponentialWalk allTransactions (allTransactions.length - 1) 0

/-- Mongo `updateOne`: apply `f` to the first document matching `p`. -/
def updateFirst (p : α → Bool) (f : α → α) : List α → List α
  | [] => []
  | x :: xs => if p x then f x :: xs else x :: updateFirst p f xs

/-- Embeds `recordUnresolvableTransactionFetchAttempt`.  If no record matches the
key, insert a fresh document holding exactly the two key fields, the two hashes
and the retry bookkeeping (`firstFetchTime = now`, `retryAttempts = 0`,
`nextRetryTime = now`); otherwise `$set` only `retryAttempts` (incremented) and
`nextRetryTime = firstFetchTime + 2 ^ priorRetryAttempts * delayFactor` on the
matching document. -/
def recordUnresolvableTransactionFetchAttempt (store : MongoDbTransactionStore)
    (transaction : Transaction) (now : Int) : MongoDbTransactionStore :=
  let transactionTime := transaction.transactionTime
  let transactionNumber := transaction.transactionNumber
  let findResults := store.unresolvableTransactionCollection.filter
    (UnresolvableTransaction.sameKey transactionTime transactionNumber)
  match findResults.head? with
  | none =>
    let newUnresolvableTransaction : UnresolvableTransaction :=
      { transactionTime := transactionTime
        transactionNumber := transactionNumber
        anchorFileHash := transaction.anchorFileHash
        transactionTimeHash := transaction.transactionTimeHash
        transactionFeePaid := none
        normalizedTransactionFee := none
        firstFetchTime := now
        retryAttempts := 0
        nextRetryTime := now }
    let updated := store.unresolvableTransactionCollection ++ [newUnresolvableTransaction]
    { store with unresolvableTransactionCollection := updated }
  | some unresolvableTransaction =>
    let retryAttempts := unresolvableTransaction.retryAttempts + 1
    let requiredElapsed :=
      2 ^ unresolvableTransaction.retryAttempts * store.exponentialDelayFactorInMilliseconds
    let nextRetryTime := unresolvableTransaction.firstFetchTime + requiredElapsed
    let updated :=
      updateFirst (UnresolvableTransaction.sameKey transactionTime transactionNumber)
        (fun u => { u with retryAttempts := retryAttempts, nextRetryTime := nextRetryTime })
        store.unresolvableTransactionCollection
    { store with unresolvableTransactionCollection := updated }

/-- Mongo cursor `limit(n)`: a positive `n` caps the number of returned
documents, while `limit(0)` is documented to mean no limit at all. -/
def mongoLimit (count : Nat) (l : List α) : List α :=
  if count = 0 then l else l.take count

/-- Embeds `getUnresolvableTransactionsDueForRetry`: filter to
`nextRetryTime <= now`, sort ascending by `nextRetryTime`, and apply the Mongo
cursor limit (0 meaning unlimited) at the given count, defaulting to the
store's `maximumUnresolvableTransactionReturnCount`. -/
def getUnresolvableTransactionsDueForRetry (store : MongoDbTransactionStore) (now : Int)
    (maximumReturnCount : Option Nat) : List UnresolvableTransaction :=
  let returnCount := match maximumReturnCount with
    | none => store.maximumUnresolvableTransactionReturnCount
    | some c => c
  mongoLimit returnCount ((store.unresolvableTransactionCollection.filter
    fun u => decide (u.nextRetryTime ≤ now)).insertionSort nextRetryAsc)

/-- Embeds `emptyCollections`: drop and recreate both collections. -/
def emptyCollections (store : MongoDbTransactionStore) : MongoDbTransactionStore :=
  { store with transactionCollection := [], unresolvableTransactionCollection := [] }

/-- Embeds `removeTransactionsLaterThan`: with no argument, empty both
collections; otherwise `deleteMany` every document with
`transactionNumber > n` from both collections. -/
def removeTransactionsLaterThan (store : MongoDbTransactionStore)
    (transactionNumber : Option Int) : MongoDbTransactionStore :=
  match transactionNumber with
  | none => emptyCollections store
  | some n =>
    let keptUnresolvable := store.unresolvableTransactionCollection.filter
      fun u => decide (u.transactionNumber ≤ n)
    let keptTransactions := store.transactionCollection.filter
      fun t => decide (t.transactionNumber ≤ n)
    { store with
        unresolvableTransactionCollection := keptUnresolvable,
        transactionCollection := keptTransactions }

/-- Typed error codes of the fee computation and verification paths. -/
inductive ErrorCode where
  | OperationCountLessThanZero
  | TransactionFeePaidInvalid
  | TransactionFeePaidLessThanNormalizedFee
deriving Repr, DecidableEq

/-- Quantized fee: a non-decreasing function of the operation count scaled by the
normalized fee rate and floored at the rate itself.  Modelled from the spec:
`FeeManager` is absent from the sampled sources (only its test suite is), and
the spec leaves the exact quantization curve open; this per-hundred-operations
scaling satisfies every sample point the spec fixes. -/
def quantizedFee (normalizedFee numberOfOperations : Int) : Int :=
  max normalizedFee (numberOfOperations * normalizedFee / 100)

/-- Modelled from the spec: `FeeManager.convertNormalizedFeeToTransactionFee`
(source absent, only `tests/core/FeeManager.spec.ts` is sampled).  Fails with
`OperationCountLessThanZero` when the operation count is non-positive, else
applies the markup percentage on the quantized fee, rounding up. -/
def convertNormalizedFeeToTransactionFee (normalizedFee numberOfOperations
    feeMarkupPercentage : Int) : Except ErrorCode Int :=
  if numberOfOperations ≤ 0 then Except.error ErrorCode.OperationCountLessThanZero
  else
    Except.ok ((quantizedFee normalizedFee numberOfOperations * (100 + feeMarkupPercentage)
      + 99) / 100)

/-- Modelled from the spec: `FeeManager.verifyTransactionFeeAndThrowOnError`
(source absent, only its test suite is sampled).  Checks the operation count,
then the normalized-rate floor, then the recomputed expected fee with zero
markup. -/
def verifyTransactionFeeAndThrowOnError (transactionFeePaid numberOfOperations
    normalizedFee : Int) : Except ErrorCode Unit :=
  if numberOfOperations ≤ 0 then Except.error ErrorCode.OperationCountLessThanZero
  else if transactionFeePaid < normalizedFee then
    Except.error ErrorCode.TransactionFeePaidLessThanNormalizedFee
  else if transactionFeePaid < (quantizedFee normalizedFee numberOfOperations * 100 + 99) / 100 then
    Except.error ErrorCode.TransactionFeePaidInvalid
  else Except.ok ()

/-- Operation awaiting batching, keyed by its unique operation identifier. -/
structure PendingOperation where
  operationIdentifier : String
  payload : String
deriving Repr, DecidableEq

/-- Modelled from the spec: OperationQueue `enqueue` appends at the tail
(FIFO by submission order); the queue source is absent, only the race-condition
demonstration test is sampled. -/
def enqueue (queue : List PendingOperation) (op : PendingOperation) : List PendingOperation :=
  queue ++ [op]

/-- Modelled from the spec: OperationQueue `peek` returns up to `maxCount`
operations from the front, non-destructively. -/
def peek (queue : List PendingOperation) (maxCount : Nat) : List PendingOperation :=
  queue.take maxCount

/-- Modelled from the spec: the BatchWriter commit removes from the queue exactly
the identifiers that were included in the anchored batch — not whatever is
currently at the front. -/
def commitRemove (queue : List PendingOperation) (committedIds : List String) :
    List PendingOperation :=
  queue.filter fun op => !(committedIds.contains op.operationIdentifier)

/-- Concrete transaction used by witnesses. -/
def sampleTransaction : Transaction :=
  { transactionNumber := 1
    transactionTime := 1
    transactionTimeHash := "th"
    anchorFileHash := "ah"
    transactionFeePaid := 7
    normalizedTransactionFee := 3 }

/-- Concrete unresolvable-transaction record used by witnesses. -/
def sampleUnresolvable : UnresolvableTransaction :=
  { transactionTime := 1
    transactionNumber := 1
    anchorFileHash := "ah"
    transactionTimeHash := "th"
    transactionFeePaid := none
    normalizedTransactionFee := none
    firstFetchTime := 10
    retryAttempts := 0
    nextRetryTime := 10 }

/-- Concrete store holding one unresolvable record, used by witnesses. -/
def sampleStore : MongoDbTransactionStore :=
  { MongoDbTransactionStore.construct (some 5) with
      unresolvableTransactionCollection := [sampleUnresolvable] }

/-- Index trace of `exponentialWalk`: the positions it visits, in order. -/
def walkIndices (index d : Nat) : List Nat :=
  index :: (if h : d + 1 ≤ index then walkIndices (index - (d + 1)) (2 * d + 1) else [])
termination_by index
decreasing_by omega

/-- Checkpoint index sequence as the claim words it: the descending indices
`n-1, n-2, n-4, n-8, …` — that is, `n - 2^k` for `k = 0, 1, 2, …` — down to the
first in-range index (`2^k ≤ n`, i.e. `k ≤ log2 n`), and empty for an empty
log. -/
def checkpointIndices (n : Nat) : List Nat :=
  if n = 0 then []
  else (List.range (Nat.log 2 n + 1)).map fun k => n - 2 ^ k

/-- Concrete three-entry sorted log used by the checkpoint witness. -/
def sampleLog : List Transaction :=
  [{ sampleTransaction with transactionTime := 1, transactionNumber := 1 },
   { sampleTransaction with transactionTime := 2, transactionNumber := 2 },
   { sampleTransaction with transactionTime := 3, transactionNumber := 3 }]

/-- Every enqueue appends, so a burst of enqueues appends the burst. -/
theorem foldl_enqueue (news : List PendingOperation) (queue : List PendingOperation) :
    news.foldl enqueue queue = queue ++ news := by
  induction news generalizing queue with
  | nil => simp
  | cons b rest ih => simp [enqueue, ih, List.append_assoc]

/-- Decomposition of a list around the first element matching `p`, read off the
head of `filter p`. -/
theorem head_filter_decomp (p : α → Bool) (l : List α) (u : α)
    (h : (l.filter p).head? = some u) :
    ∃ l₁ l₂, l = l₁ ++ u :: l₂ ∧ (∀ x ∈ l₁, p x = false) ∧ p u = true := by
  induction l with
  | nil => simp at h
  | cons x xs ih =>
    by_cases hx : p x
    · rw [List.filter_cons_of_pos hx] at h
      rw [List.head?_cons, Option.some_inj] at h
      subst h
      exact ⟨[], xs, rfl, by simp, hx⟩
    · rw [List.filter_cons_of_neg (by simpa using hx)] at h
      obtain ⟨l₁, l₂, rfl, h1, h2⟩ := ih h
      refine ⟨x :: l₁, l₂, rfl, ?_, h2⟩
      intro y hy
      rcases List.mem_cons.mp hy with rfl | hy2
      · simpa using hx
      · exact h1 y hy2

/-- `updateFirst` rewrites exactly the first match and nothing else. -/
theorem updateFirst_append (p : α → Bool) (f : α → α) (l₁ l₂ : List α) (u : α)
    (h1 : ∀ x ∈ l₁, p x = false) (hu : p u = true) :
    updateFirst p f (l₁ ++ u :: l₂) = l₁ ++ f u :: l₂ := by
  induction l₁ with
  | nil => simp [updateFirst, hu]
  | cons x xs ih =>
    have hx := h1 x (List.mem_cons_self x xs)
    simp only [List.cons_append, updateFirst, hx, Bool.false_eq_true, if_false]
    rw [List.append_eq, ih (fun y hy => h1 y (List.mem_cons_of_mem _ hy))]

/-- Every element of `updateFirst p f l` is an element of `l` or the image under
`f` of an element of `l`. -/
theorem mem_updateFirst (p : α → Bool) (f : α → α) (l : List α) (x : α)
    (hx : x ∈ updateFirst p f l) : x ∈ l ∨ ∃ y, y ∈ l ∧ x = f y := by
  induction l with
  | nil => simp [updateFirst] at hx
  | cons a as ih =>
    by_cases ha : p a
    · simp only [updateFirst] at hx
      rw [if_pos ha, List.mem_cons] at hx
      rcases hx with h | h
      · exact Or.inr ⟨a, List.mem_cons_self a as, h⟩
      · exact Or.inl (List.mem_cons_of_mem _ h)
    · simp only [updateFirst] at hx
      rw [if_neg ha, List.mem_cons] at hx
      rcases hx with h | h
      · exact Or.inl (h ▸ List.mem_cons_self a as)
      · rcases ih h with h2 | ⟨y, hy, hxy⟩
        · exact Or.inl (List.mem_cons_of_mem _ h2)
        · exact Or.inr ⟨y, List.mem_cons_of_mem _ hy, hxy⟩

/-- Elements returned under a cursor limit come from the unlimited result. -/
theorem mongoLimit_mem {c : Nat} {l : List α} {x : α} (hx : x ∈ mongoLimit c l) : x ∈ l := by
  unfold mongoLimit at hx
  by_cases h : c = 0
  · rw [if_pos h] at hx
    exact hx
  · rw [if_neg h] at hx
    exact List.take_subset _ _ hx

/-- The limited cursor result is a sublist of the unlimited result. -/
theorem mongoLimit_sublist (c : Nat) (l : List α) : List.Sublist (mongoLimit c l) l := by
  unfold mongoLimit
  by_cases h : c = 0
  · rw [if_pos h]
  · rw [if_neg h]
    exact List.take_sublist _ _

/-- A positive cursor limit bounds the number of returned documents. -/
theorem mongoLimit_length_le (c : Nat) (hc : c ≠ 0) (l : List α) :
    (mongoLimit c l).length ≤ c := by
  unfold mongoLimit
  rw [if_neg hc]
  exact List.length_take_le _ _

/-- A cursor limit of zero returns everything. -/
theorem mongoLimit_zero (l : List α) : mongoLimit 0 l = l := by
  simp [mongoLimit]

/-- Claim C7: `computeTransactionFee(100, 100, 5)` and `computeTransactionFee(100, 1, 5)`
both return exactly 105 — for small operation counts the quantized fee floors at
the normalized fee rate before the percentage markup is applied. -/
theorem convertNormalizedFeeToTransactionFee_examples :
    convertNormalizedFeeToTransactionFee 100 100 5 = Except.ok 105 ∧
    convertNormalizedFeeToTransactionFee 100 1 5 = Except.ok 105 := by
  constructor <;> rfl

/-- Claim C8: for every normalized fee rate, fee paid and markup, both the fee
computation and the fee verification fail with `OperationCountLessThanZero`
whenever the operation count is `<= 0`, and the typed error is the call's
result (returned to the immediate caller, not swallowed). -/
theorem feeOperations_reject_nonpositive_operationCount
    (normalizedFee transactionFeePaid feeMarkupPercentage numberOfOperations : Int)
    (h : numberOfOperations ≤ 0) :
    convertNormalizedFeeToTransactionFee normalizedFee numberOfOperations feeMarkupPercentage =
        Except.error ErrorCode.OperationCountLessThanZero ∧
    verifyTransactionFeeAndThrowOnError transactionFeePaid numberOfOperations normalizedFee =
        Except.error ErrorCode.OperationCountLessThanZero := by
  constructor
  · unfold convertNormalizedFeeToTransactionFee
    rw [if_pos h]
  · unfold verifyTransactionFeeAndThrowOnError
    rw [if_pos h]

/-- Witness for C8 at operation count 0. -/
theorem feeOperations_reject_nonpositive_operationCount_witness :
    convertNormalizedFeeToTransactionFee 100 0 5 =
        Except.error ErrorCode.OperationCountLessThanZero ∧
    verifyTransactionFeeAndThrowOnError 101 0 100 =
        Except.error ErrorCode.OperationCountLessThanZero :=
  feeOperations_reject_nonpositive_operationCount 100 101 5 0 (by decide)

/-- Claim C2: `recordTransaction` is an idempotent insert keyed by
`(transactionTime, transactionNumber)`: a duplicate insert is a silent no-op
leaving exactly one stored entry for that pair, a fresh insert stores exactly
one entry, and any storage error other than the duplicate-key conflict (code
11000) propagates unchanged to the caller. -/
theorem addProcessedTransaction_idempotent (collection : List Transaction) (t : Transaction)
    (e : MongoError) :
    (collection.countP (Transaction.sameKey t.transactionTime t.transactionNumber) = 1 →
      addProcessedTransaction none collection t = Except.ok collection) ∧
    (collection.countP (Transaction.sameKey t.transactionTime t.transactionNumber) = 0 →
      addProcessedTransaction none collection t = Except.ok (collection ++ [t]) ∧
      (collection ++ [t]).countP (Transaction.sameKey t.transactionTime t.transactionNumber) = 1) ∧
    (e.code ≠ 11000 →
      addProcessedTransaction (some e) collection t = Except.error e) := by
  refine ⟨fun h1 => ?_, fun h0 => ?_, fun he => ?_⟩
  · have hx : collection.any (Transaction.sameKey t.transactionTime t.transactionNumber) = true := by
      rw [List.any_eq_true]
      have : 0 < collection.countP (Transaction.sameKey t.transactionTime t.transactionNumber) := by
        omega
      exact List.countP_pos_iff.mp this
    simp [addProcessedTransaction, insertOne, hx]
  · have hx : collection.any (Transaction.sameKey t.transactionTime t.transactionNumber) = false := by
      rw [Bool.eq_false_iff]
      intro hcontra
      rw [List.any_eq_true] at hcontra
      have := List.countP_pos_iff.mpr hcontra
      omega
    have hself : Transaction.sameKey t.transactionTime t.transactionNumber t = true := by
      simp [Transaction.sameKey]
    constructor
    · simp [addProcessedTransaction, insertOne, hx]
    · rw [List.countP_append, h0, List.countP_cons, List.countP_nil, hself]
      rfl
  · simp [addProcessedTransaction, insertOne, he]

/-- Witness for C2: a duplicate of the sole stored transaction is swallowed, a
fresh insert is stored, and a non-duplicate storage error propagates. -/
theorem addProcessedTransaction_idempotent_witness :
    (addProcessedTransaction none [default] default = Except.ok [default] ∧
      addProcessedTransaction none [] default = Except.ok [default] ∧
      addProcessedTransaction (some { code := 1 }) [default] default =
        Except.error { code := 1 }) := by
  refine ⟨?_, ?_, ?_⟩
  · exact (addProcessedTransaction_idempotent [default] default { code := 1 }).1 (by decide)
  · exact ((addProcessedTransaction_idempotent [] default { code := 1 }).2.1 (by decide)).1
  · exact (addProcessedTransaction_idempotent [default] default { code := 1 }).2.2 (by decide)

/-- Claim C6: `truncateAfter(N)` removes from both collections exactly the
records with `transactionNumber > N` (every record with a number `<= N` stays,
in place, as a sublist of the original); `truncateAfter(none)` empties both
collections completely. -/
theorem removeTransactionsLaterThan_spec (store : MongoDbTransactionStore) (n : Int) :
    (∀ t, t ∈ (removeTransactionsLaterThan store (some n)).transactionCollection ↔
        t ∈ store.transactionCollection ∧ t.transactionNumber ≤ n) ∧
    (∀ u, u ∈ (removeTransactionsLaterThan store (some n)).unresolvableTransactionCollection ↔
        u ∈ store.unresolvableTransactionCollection ∧ u.transactionNumber ≤ n) ∧
    List.Sublist (removeTransactionsLaterThan store (some n)).transactionCollection
      store.transactionCollection ∧
    List.Sublist (removeTransactionsLaterThan store (some n)).unresolvableTransactionCollection
      store.unresolvableTransactionCollection ∧
    (removeTransactionsLaterThan store none).transactionCollection = [] ∧
    (removeTransactionsLaterThan store none).unresolvableTransactionCollection = [] := by
  refine ⟨fun t => ?_, fun u => ?_, ?_, ?_, rfl, rfl⟩
  · simp [removeTransactionsLaterThan, List.mem_filter]
  · simp [removeTransactionsLaterThan, List.mem_filter]
  · exact List.filter_sublist _
  · exact List.filter_sublist _

/-- Counterexample to C5 as stated: Mongo's `limit(0)` means no limit, so
`dueForRetry` with limit 0 over a store holding one due record returns that
record — more than the stated cap of 0 entries. -/
theorem getUnresolvableTransactionsDueForRetry_limit_zero_counterexample :
    ¬ ((getUnresolvableTransactionsDueForRetry sampleStore 99 (some 0)).length ≤ 0) := by
  decide

/-- Claim C5 (amended): `dueForRetry` returns only unresolvable records with
`nextRetryTime <= now`, sorted ascending by `nextRetryTime`; a positive limit
caps the count at that limit, a limit of 0 means no limit (every due record is
returned), and when no limit is given the cap defaults to 100. -/
theorem getUnresolvableTransactionsDueForRetry_spec_amended
    (col : List UnresolvableTransaction)
    (factor : Option Int) (now : Int) (maximumReturnCount : Option Nat) :
    let store := { MongoDbTransactionStore.construct factor with
      unresolvableTransactionCollection := col }
    let r := getUnresolvableTransactionsDueForRetry store now maximumReturnCount
    (∀ u ∈ r, u.nextRetryTime ≤ now) ∧
    List.Sorted nextRetryAsc r ∧
    (∀ c, maximumReturnCount = some c → 0 < c → r.length ≤ c) ∧
    (maximumReturnCount = some 0 → ∀ u ∈ col, u.nextRetryTime ≤ now → u ∈ r) ∧
    (maximumReturnCount = none → r.length ≤ 100) := by
  intro store r
  have hsub : ∀ u ∈ r, u ∈ col.filter fun u => decide (u.nextRetryTime ≤ now) := by
    intro u hu
    have h1 : u ∈ (col.filter fun u => decide (u.nextRetryTime ≤ now)).insertionSort
        nextRetryAsc := mongoLimit_mem hu
    exact (List.mem_insertionSort nextRetryAsc).mp h1
  refine ⟨?_, ?_, ?_, ?_, ?_⟩
  · intro u hu
    have := List.mem_filter.mp (hsub u hu)
    simpa using this.2
  · exact List.Pairwise.sublist (mongoLimit_sublist _ _)
      (List.sorted_insertionSort nextRetryAsc _)
  · intro c hc hpos
    subst hc
    exact mongoLimit_length_le c (by omega) _
  · intro hc u hu hdue
    subst hc
    show u ∈ mongoLimit 0 ((col.filter fun v => decide (v.nextRetryTime ≤ now)).insertionSort
      nextRetryAsc)
    rw [mongoLimit_zero, List.mem_insertionSort, List.mem_filter]
    exact ⟨hu, by simpa using hdue⟩
  · intro hc
    subst hc
    exact mongoLimit_length_le 100 (by decide) _

/-- Witness for the amended C5 on a one-record store: the default cap, an
explicit positive limit, and the unlimited limit-0 case. -/
theorem getUnresolvableTransactionsDueForRetry_spec_amended_witness :
    ((∀ u ∈ getUnresolvableTransactionsDueForRetry sampleStore 99 none,
        u.nextRetryTime ≤ 99) ∧
      (getUnresolvableTransactionsDueForRetry sampleStore 99 none).length ≤ 100) ∧
    (getUnresolvableTransactionsDueForRetry sampleStore 99 (some 7)).length ≤ 7 ∧
    (∀ u ∈ [sampleUnresolvable], u.nextRetryTime ≤ 99 →
      u ∈ getUnresolvableTransactionsDueForRetry sampleStore 99 (some 0)) := by
  refine ⟨⟨?_, ?_⟩, ?_, ?_⟩
  · exact (getUnresolvableTransactionsDueForRetry_spec_amended [sampleUnresolvable] (some 5)
      99 none).1
  · exact (getUnresolvableTransactionsDueForRetry_spec_amended [sampleUnresolvable] (some 5)
      99 none).2.2.2.2 rfl
  · exact (getUnresolvableTransactionsDueForRetry_spec_amended [sampleUnresolvable] (some 5)
      99 (some 7)).2.2.1 7 rfl (by decide)
  · exact (getUnresolvableTransactionsDueForRetry_spec_amended [sampleUnresolvable] (some 5)
      99 (some 0)).2.2.2.1 rfl

/-- Claim C1: a batching cycle that peeked a batch from the queue commits by
removing exactly the peeked identifiers; an operation enqueued concurrently
after the cycle began (so not among the peeked identifiers) is never removed
and remains queued after the commit, regardless of how the concurrent enqueues
interleave. -/
theorem batchWriter_commit_removes_exactly_batch (initialQueue news : List PendingOperation)
    (maxCount : Nat) (b : PendingOperation) (hb : b ∈ news)
    (hfresh : ∀ a ∈ peek initialQueue maxCount,
      a.operationIdentifier ≠ b.operationIdentifier) :
    let batchIds := (peek initialQueue maxCount).map PendingOperation.operationIdentifier
    let finalQueue := commitRemove (news.foldl enqueue initialQueue) batchIds
    b ∈ finalQueue ∧
    (∀ op ∈ news.foldl enqueue initialQueue, op ∉ finalQueue →
      op.operationIdentifier ∈ batchIds) ∧
    (∀ a ∈ initialQueue, a.operationIdentifier ∈ batchIds → a ∉ finalQueue) := by
  intro batchIds finalQueue
  have hq : news.foldl enqueue initialQueue = initialQueue ++ news := foldl_enqueue news initialQueue
  have hnotin : b.operationIdentifier ∉ batchIds := by
    intro hmem
    obtain ⟨a, ha, hae⟩ := List.mem_map.mp hmem
    exact hfresh a ha hae
  refine ⟨?_, ?_, ?_⟩
  · show b ∈ commitRemove (news.foldl enqueue initialQueue) batchIds
    simp only [commitRemove]
    rw [List.mem_filter]
    refine ⟨by rw [hq]; exact List.mem_append_right _ hb, by simpa using hnotin⟩
  · intro op hop hnot
    by_contra hid
    apply hnot
    show op ∈ commitRemove (news.foldl enqueue initialQueue) batchIds
    simp only [commitRemove]
    rw [List.mem_filter]
    exact ⟨hop, by simpa using hid⟩
  · intro a ha hid hmem
    have hmem2 : a ∈ commitRemove (news.foldl enqueue initialQueue) batchIds := hmem
    simp only [commitRemove] at hmem2
    have h2 := (List.mem_filter.mp hmem2).2
    simp only [Bool.not_eq_true'] at h2
    exact absurd hid (by simpa using h2)

/-- Witness for C1: operation `a` is peeked and committed, operation `b` arrives
concurrently and survives the commit. -/
theorem batchWriter_commit_removes_exactly_batch_witness :
    let opA : PendingOperation := { operationIdentifier := "a", payload := "pa" }
    let opB : PendingOperation := { operationIdentifier := "b", payload := "pb" }
    let batchIds := (peek [opA] 1).map PendingOperation.operationIdentifier
    let finalQueue := commitRemove ([opB].foldl enqueue [opA]) batchIds
    opB ∈ finalQueue ∧
    (∀ op ∈ [opB].foldl enqueue [opA], op ∉ finalQueue →
      op.operationIdentifier ∈ batchIds) ∧
    (∀ a ∈ [opA], a.operationIdentifier ∈ batchIds → a ∉ finalQueue) :=
  batchWriter_commit_removes_exactly_batch [{ operationIdentifier := "a", payload := "pa" }]
    [{ operationIdentifier := "b", payload := "pb" }] 1
    { operationIdentifier := "b", payload := "pb" }
    (by simp) (by decide)

/-- Claim C3: the first `recordUnresolvableAttempt` for a key creates a record
with `retryAttempts = 0`, `firstFetchTime = now` and `nextRetryTime = now`;
every subsequent call increments `retryAttempts` by exactly one and sets
`nextRetryTime = firstFetchTime + 2 ^ priorRetryAttempts * delayFactor`, so in
particular `firstFetchTime + delayFactor` after the first recorded failure. -/
theorem recordUnresolvableTransactionFetchAttempt_schedule
    (store : MongoDbTransactionStore) (t : Transaction) (now : Int) :
    (store.unresolvableTransactionCollection.filter
        (UnresolvableTransaction.sameKey t.transactionTime t.transactionNumber) = [] →
      (recordUnresolvableTransactionFetchAttempt store t now).unresolvableTransactionCollection =
        store.unresolvableTransactionCollection ++
          [{ transactionTime := t.transactionTime
             transactionNumber := t.transactionNumber
             anchorFileHash := t.anchorFileHash
             transactionTimeHash := t.transactionTimeHash
             transactionFeePaid := none
             normalizedTransactionFee := none
             firstFetchTime := now
             retryAttempts := 0
             nextRetryTime := now }]) ∧
    (∀ u, (store.unresolvableTransactionCollection.filter
          (UnresolvableTransaction.sameKey t.transactionTime t.transactionNumber)).head? =
            some u →
      ∃ l₁ l₂,
        store.unresolvableTransactionCollection = l₁ ++ u :: l₂ ∧
        (recordUnresolvableTransactionFetchAttempt store t now).unresolvableTransactionCollection =
          l₁ ++ { u with
                  retryAttempts := u.retryAttempts + 1,
                  nextRetryTime := u.firstFetchTime +
                    2 ^ u.retryAttempts * store.exponentialDelayFactorInMilliseconds } :: l₂ ∧
        (u.retryAttempts = 0 →
          u.firstFetchTime + 2 ^ u.retryAttempts * store.exponentialDelayFactorInMilliseconds =
            u.firstFetchTime + store.exponentialDelayFactorInMilliseconds)) := by
  constructor
  · intro h
    simp only [recordUnresolvableTransactionFetchAttempt, h, List.head?_nil]
  · intro u hu
    obtain ⟨l₁, l₂, hdecomp, hl₁, hpu⟩ := head_filter_decomp _ _ _ hu
    refine ⟨l₁, l₂, hdecomp, ?_, ?_⟩
    · simp only [recordUnresolvableTransactionFetchAttempt, hu]
      rw [hdecomp, updateFirst_append _ _ _ _ _ hl₁ hpu]
    · intro h0
      rw [h0]
      norm_num

/-- Witness for C3: creation on an empty store, then the update on a store whose
sole record has `retryAttempts = 0`, `firstFetchTime = 10` and delay factor 5. -/
theorem recordUnresolvableTransactionFetchAttempt_schedule_witness :
    ((recordUnresolvableTransactionFetchAttempt (MongoDbTransactionStore.construct (some 5))
        sampleTransaction 10).unresolvableTransactionCollection =
      (MongoDbTransactionStore.construct (some 5)).unresolvableTransactionCollection ++
        [{ transactionTime := sampleTransaction.transactionTime
           transactionNumber := sampleTransaction.transactionNumber
           anchorFileHash := sampleTransaction.anchorFileHash
           transactionTimeHash := sampleTransaction.transactionTimeHash
           transactionFeePaid := none
           normalizedTransactionFee := none
           firstFetchTime := 10
           retryAttempts := 0
           nextRetryTime := 10 }]) ∧
    (∃ l₁ l₂,
      sampleStore.unresolvableTransactionCollection = l₁ ++ sampleUnresolvable :: l₂ ∧
      (recordUnresolvableTransactionFetchAttempt sampleStore sampleTransaction
          99).unresolvableTransactionCollection =
        l₁ ++ { sampleUnresolvable with
                retryAttempts := sampleUnresolvable.retryAttempts + 1,
                nextRetryTime := sampleUnresolvable.firstFetchTime +
                  2 ^ sampleUnresolvable.retryAttempts *
                    sampleStore.exponentialDelayFactorInMilliseconds } :: l₂ ∧
      (sampleUnresolvable.retryAttempts = 0 →
        sampleUnresolvable.firstFetchTime + 2 ^ sampleUnresolvable.retryAttempts *
            sampleStore.exponentialDelayFactorInMilliseconds =
          sampleUnresolvable.firstFetchTime + sampleStore.exponentialDelayFactorInMilliseconds)) := by
  constructor
  · exact (recordUnresolvableTransactionFetchAttempt_schedule
      (MongoDbTransactionStore.construct (some 5)) sampleTransaction 10).1 (by decide)
  · exact (recordUnresolvableTransactionFetchAttempt_schedule sampleStore sampleTransaction
      99).2 sampleUnresolvable (by decide)

/-- Claim C10: a repeated `recordUnresolvableAttempt` rewrites only the matched
record, changing nothing but its `retryAttempts` and `nextRetryTime`:
`firstFetchTime`, the key fields, the hashes and the (absent) fee fields are
preserved, every other record is untouched, and the `transactions` collection
is untouched. -/
theorem recordUnresolvableTransactionFetchAttempt_frame
    (store : MongoDbTransactionStore) (t : Transaction) (now : Int)
    (u : UnresolvableTransaction)
    (hu : (store.unresolvableTransactionCollection.filter
        (UnresolvableTransaction.sameKey t.transactionTime t.transactionNumber)).head? =
          some u) :
    ∃ l₁ l₂ v,
      store.unresolvableTransactionCollection = l₁ ++ u :: l₂ ∧
      (recordUnresolvableTransactionFetchAttempt store t now).unresolvableTransactionCollection =
        l₁ ++ v :: l₂ ∧
      v.firstFetchTime = u.firstFetchTime ∧
      v.transactionTime = u.transactionTime ∧
      v.transactionNumber = u.transactionNumber ∧
      v.anchorFileHash = u.anchorFileHash ∧
      v.transactionTimeHash = u.transactionTimeHash ∧
      v.transactionFeePaid = u.transactionFeePaid ∧
      v.normalizedTransactionFee = u.normalizedTransactionFee ∧
      (recordUnresolvableTransactionFetchAttempt store t now).transactionCollection =
        store.transactionCollection := by
  obtain ⟨l₁, l₂, hdecomp, hl₁, hpu⟩ := head_filter_decomp _ _ _ hu
  refine ⟨l₁, l₂,
    { u with
      retryAttempts := u.retryAttempts + 1,
      nextRetryTime := u.firstFetchTime +
        2 ^ u.retryAttempts * store.exponentialDelayFactorInMilliseconds },
    hdecomp, ?_, rfl, rfl, rfl, rfl, rfl, rfl, rfl, ?_⟩
  · simp only [recordUnresolvableTransactionFetchAttempt, hu]
    rw [hdecomp, updateFirst_append _ _ _ _ _ hl₁ hpu]
  · simp only [recordUnresolvableTransactionFetchAttempt, hu]

/-- Witness for C10 on the one-record sample store. -/
theorem recordUnresolvableTransactionFetchAttempt_frame_witness :
    ∃ l₁ l₂ v,
      sampleStore.unresolvableTransactionCollection = l₁ ++ sampleUnresolvable :: l₂ ∧
      (recordUnresolvableTransactionFetchAttempt sampleStore sampleTransaction
          99).unresolvableTransactionCollection = l₁ ++ v :: l₂ ∧
      v.firstFetchTime = sampleUnresolvable.firstFetchTime ∧
      v.transactionTime = sampleUnresolvable.transactionTime ∧
      v.transactionNumber = sampleUnresolvable.transactionNumber ∧
      v.anchorFileHash = sampleUnresolvable.anchorFileHash ∧
      v.transactionTimeHash = sampleUnresolvable.transactionTimeHash ∧
      v.transactionFeePaid = sampleUnresolvable.transactionFeePaid ∧
      v.normalizedTransactionFee = sampleUnresolvable.normalizedTransactionFee ∧
      (recordUnresolvableTransactionFetchAttempt sampleStore sampleTransaction
          99).transactionCollection = sampleStore.transactionCollection :=
  recordUnresolvableTransactionFetchAttempt_frame sampleStore sampleTransaction 99
    sampleUnresolvable (by decide)

/-- Claim C9: a record created by `recordUnresolvableAttempt` stores no fee
fields, updates never introduce them, and `dueForRetry` only returns stored
records — so transactions returned for retry carry no fee information. -/
theorem recordUnresolvableTransactionFetchAttempt_stores_no_fee
    (store : MongoDbTransactionStore) (t : Transaction) (now retryNow : Int)
    (maximumReturnCount : Option Nat)
    (hinv : ∀ u ∈ store.unresolvableTransactionCollection,
      u.transactionFeePaid = none ∧ u.normalizedTransactionFee = none) :
    (∀ u ∈ (recordUnresolvableTransactionFetchAttempt store t
        now).unresolvableTransactionCollection,
      u.transactionFeePaid = none ∧ u.normalizedTransactionFee = none) ∧
    (∀ u ∈ getUnresolvableTransactionsDueForRetry store retryNow maximumReturnCount,
      u.transactionFeePaid = none ∧ u.normalizedTransactionFee = none) := by
  constructor
  · intro u hu
    cases hh : (store.unresolvableTransactionCollection.filter
        (UnresolvableTransaction.sameKey t.transactionTime t.transactionNumber)).head? with
    | none =>
      simp only [recordUnresolvableTransactionFetchAttempt, hh] at hu
      rcases List.mem_append.mp hu with h | h
      · exact hinv u h
      · rw [List.mem_singleton] at h
        subst h
        exact ⟨rfl, rfl⟩
    | some w =>
      simp only [recordUnresolvableTransactionFetchAttempt, hh] at hu
      rcases mem_updateFirst _ _ _ _ hu with h | ⟨y, hy, rfl⟩
      · exact hinv u h
      · exact ⟨(hinv y hy).1, (hinv y hy).2⟩
  · intro u hu
    have h1 : u ∈ (store.unresolvableTransactionCollection.filter
        fun v => decide (v.nextRetryTime ≤ retryNow)).insertionSort nextRetryAsc :=
      mongoLimit_mem hu
    have h2 := (List.mem_insertionSort nextRetryAsc).mp h1
    exact hinv u (List.mem_filter.mp h2).1

/-- Witness for C9 on the one-record sample store (fee fields absent by
construction). -/
theorem recordUnresolvableTransactionFetchAttempt_stores_no_fee_witness :
    (∀ u ∈ (recordUnresolvableTransactionFetchAttempt sampleStore sampleTransaction
        99).unresolvableTransactionCollection,
      u.transactionFeePaid = none ∧ u.normalizedTransactionFee = none) ∧
    (∀ u ∈ getUnresolvableTransactionsDueForRetry sampleStore 99 none,
      u.transactionFeePaid = none ∧ u.normalizedTransactionFee = none) :=
  recordUnresolvableTransactionFetchAttempt_stores_no_fee sampleStore sampleTransaction 99 99
    none (by decide)

/-- `exponentialWalk` reads off exactly the entries at its index trace. -/
theorem exponentialWalk_eq_map (all : List Transaction) :
    ∀ index d, exponentialWalk all index d =
      (walkIndices index d).map fun i => all.getD i default := by
  intro index
  induction index using Nat.strong_induction_on with
  | _ index ih =>
    intro d
    rw [exponentialWalk, walkIndices]
    by_cases h : d + 1 ≤ index
    · rw [dif_pos h, dif_pos h, List.map_cons, ih _ (by omega)]
    · rw [dif_neg h, dif_neg h, List.map_cons, List.map_nil]

/-- Closed form of the walk's index trace: starting at `n - 2 ^ k` with current
distance `2 ^ k`, the walk visits `n - 2 ^ k, n - 2 ^ (k + 1), …` for as long as
the power of two stays at most `n`. -/
theorem walkIndices_closed (n : Nat) (hn : 1 ≤ n) :
    ∀ j k, Nat.log 2 n + 1 - k = j → 2 ^ k ≤ n →
      walkIndices (n - 2 ^ k) (2 ^ k - 1) =
        (List.range j).map fun i => n - 2 ^ (k + i) := by
  intro j
  induction j with
  | zero =>
    intro k hj hk
    have hlog : k ≤ Nat.log 2 n := (Nat.pow_le_iff_le_log one_lt_two (by omega)).mp hk
    omega
  | succ j ih =>
    intro k hj hk
    have hpos : 1 ≤ 2 ^ k := Nat.one_le_two_pow
    have hsucc : (2:Nat) ^ (k + 1) = 2 ^ k + 2 ^ k := by rw [pow_succ]; omega
    rw [walkIndices]
    by_cases hnext : 2 ^ (k + 1) ≤ n
    · have hcond : (2 ^ k - 1) + 1 ≤ n - 2 ^ k := by omega
      rw [dif_pos hcond]
      have harg1 : n - 2 ^ k - ((2 ^ k - 1) + 1) = n - 2 ^ (k + 1) := by omega
      have harg2 : 2 * (2 ^ k - 1) + 1 = 2 ^ (k + 1) - 1 := by omega
      have hj2 : Nat.log 2 n + 1 - (k + 1) = j := by
        have hlog : k + 1 ≤ Nat.log 2 n :=
          (Nat.pow_le_iff_le_log one_lt_two (by omega)).mp hnext
        omega
      rw [harg1, harg2, ih (k + 1) hj2 hnext]
      rw [List.range_succ_eq_map, List.map_cons, List.map_map]
      refine congrArg₂ _ (by simp) ?_
      refine List.map_congr_left fun i _ => ?_
      simp only [Function.comp]
      have : k + (i + 1) = k + 1 + i := by omega
      rw [this]
    · have hcond : ¬ ((2 ^ k - 1) + 1 ≤ n - 2 ^ k) := by omega
      rw [dif_neg hcond]
      have hlogk : k ≤ Nat.log 2 n := (Nat.pow_le_iff_le_log one_lt_two (by omega)).mp hk
      have hlogk2 : ¬ (k + 1 ≤ Nat.log 2 n) := fun hc =>
        hnext ((Nat.pow_le_iff_le_log one_lt_two (by omega)).mpr hc)
      have hj0 : j = 0 := by omega
      subst hj0
      rw [List.range_succ_eq_map, List.range_zero, List.map_nil, List.map_cons, List.map_nil]
      refine congrArg₂ _ (by simp) rfl

/-- Claim C4: over a store of `n` transactions sorted ascending by
`(transactionTime, transactionNumber)`, `checkpointSamples` returns exactly the
entries at the descending indices `n-1, n-2, n-4, n-8, …` (backward distances
doubling each step) down to the first in-range index, in that order; over an
empty store it returns the empty sequence. -/
theorem getExponentiallySpacedTransactions_checkpoints (col : List Transaction)
    (hsorted : List.Sorted transactionAsc col) :
    getExponentiallySpacedTransactions col =
      (checkpointIndices col.length).map fun i => col.getD i default := by
  unfold getExponentiallySpacedTransactions
  simp only [hsorted.insertionSort_eq]
  by_cases hnil : col = []
  · subst hnil
    simp [checkpointIndices]
  · have hn : 1 ≤ col.length := List.length_pos.mpr hnil
    rw [if_neg (by simpa [List.isEmpty_iff] using hnil)]
    rw [exponentialWalk_eq_map]
    have hwalk := walkIndices_closed col.length hn (Nat.log 2 col.length + 1) 0
      (by omega) (by simpa using hn)
    simp only [pow_zero, Nat.sub_self] at hwalk
    rw [hwalk]
    unfold checkpointIndices
    rw [if_neg (by omega)]
    simp only [List.map_map]
    refine List.map_congr_left fun k _ => ?_
    simp [Function.comp]

/-- Witness for C4 on a concrete sorted three-entry log. -/
theorem getExponentiallySpacedTransactions_checkpoints_witness :
    getExponentiallySpacedTransactions sampleLog =
      (checkpointIndices sampleLog.length).map fun i => sampleLog.getD i default :=
  getExponentiallySpacedTransactions_checkpoints sampleLog (by decide)

/-- Witness for C6 on the one-record sample store. -/
theorem removeTransactionsLaterThan_spec_witness :
    ((removeTransactionsLaterThan sampleStore none).transactionCollection = [] ∧
      (removeTransactionsLaterThan sampleStore none).unresolvableTransactionCollection = []) ∧
    (sampleUnresolvable ∈
        (removeTransactionsLaterThan sampleStore (some 1)).unresolvableTransactionCollection ↔
      sampleUnresolvable ∈ sampleStore.unresolvableTransactionCollection ∧
        sampleUnresolvable.transactionNumber ≤ 1) :=
  ⟨⟨(removeTransactionsLaterThan_spec sampleStore 1).2.2.2.2.1,
    (removeTransactionsLaterThan_spec sampleStore 1).2.2.2.2.2⟩,
   (removeTransactionsLaterThan_spec sampleStore 1).2.1 sampleUnresolvable⟩
